import Mathlib

/-!
Verification of the change-point detection and curve-correction engine of the
roche-flatten repository.  The definitions below are shallow embeddings of the
Python sources, principally `src/flatten/utils/algorithms.py`,
`src/flatten/utils/visualization.py`, and the batch drivers
`src/flatten/apply_corrected_cusum_all.py` and
`src/flatten/create_flattened_database_fast.py`.  Python floats are modelled
as rationals; a Python `ValueError` (e.g. `min` of an empty sequence) is
modelled as `none` at the top-level entry points.
-/

namespace RocheFlatten

/-- Python builtin `min` over a list, as a left fold of binary `min` starting
from the head.  On the empty list Python raises `ValueError`; here we return
the junk value 0 and the top-level entry points that could receive an empty
list guard it explicitly with an `Option`. -/
def list_min : List ℚ → ℚ
  | [] => 0
  | x :: xs => xs.foldl min x

/-- Python builtin `max` over a list, mirroring `list_min`. -/
def list_max : List ℚ → ℚ
  | [] => 0
  | x :: xs => xs.foldl max x

/-- Python `list.index(x)`: the index of the first (leftmost) occurrence of
`x`.  On a list not containing `x` Python raises; the value returned here for
that case (the length) is never relied upon. -/
def index_of_first (x : ℚ) : List ℚ → Nat
  | [] => 0
  | y :: ys => if y = x then 0 else index_of_first x ys + 1

/-- Embedding of `find_cusum_minimum_index` from `src/flatten/utils/algorithms.py`:
`min_val = min(cusum_values); return cusum_values.index(min_val)`. -/
def find_cusum_minimum_index (cusum_values : List ℚ) : Nat :=
  index_of_first (list_min cusum_values) cusum_values

/-- One step of the CUSUM recurrence from `compute_negative_cusum`:
`s = min(0, cusum[-1] + (diff - k))` with `diff = cur - prev`. -/
def cusumStep (k s prev cur : ℚ) : ℚ := min 0 (s + ((cur - prev) - k))

/-- The loop body of `compute_negative_cusum`: starting from accumulated value
`s` and previous sample `prev`, emit the CUSUM values for the remaining
samples. -/
def cusumFrom (k : ℚ) : ℚ → ℚ → List ℚ → List ℚ
  | _, _, [] => []
  | s, prev, cur :: rest =>
      cusumStep k s prev cur :: cusumFrom k (cusumStep k s prev cur) cur rest

/-- Embedding of `compute_negative_cusum` from `src/flatten/utils/algorithms.py`:
`cusum = [0]; for i in range(1, len(y_vals)): diff = y_vals[i] - y_vals[i-1];
cusum.append(min(0, cusum[-1] + (diff - k)))`.  Note that on an empty input
the Python code still returns `[0]`. -/
def compute_negative_cusum (y_vals : List ℚ) (k : ℚ) : List ℚ :=
  match y_vals with
  | [] => [0]
  | y0 :: rest => 0 :: cusumFrom k 0 y0 rest

/-- Embedding of `smooth_curve` from `src/flatten/utils/algorithms.py`: a centered moving
average whose window is truncated at the boundaries; inputs shorter than the
window are returned unchanged.  Nat subtraction `i - half_window` is exactly
Python's `max(0, i - half_window)`. -/
def smooth_curve (y_vals : List ℚ) (window_size : Nat) : List ℚ :=
  if y_vals.length < window_size then y_vals
  else
    (List.range y_vals.length).map (fun i =>
      let half_window := window_size / 2
      let start := i - half_window
      let stop := min y_vals.length (i + half_window + 1)
      ((y_vals.drop start).take (stop - start)).sum / ((stop - start : Nat) : ℚ))

/-- Embedding of `np.mean` of a list: sum divided by length. -/
def np_mean (l : List ℚ) : ℚ := l.sum / ((l.length : Nat) : ℚ)

/-- Population variance, the square of `np.std` (numpy default `ddof=0`). -/
def pvariance (l : List ℚ) : ℚ :=
  (l.map (fun x => (x - np_mean l) ^ 2)).sum / ((l.length : Nat) : ℚ)

/-- Predicate stating that `s` is the value `np.std(l)` computes: the nonnegative square root of the
population variance.  Square roots of rationals are in general irrational, so
the standard deviation enters the embedding as a parameter constrained by this
predicate. -/
def is_np_std (l : List ℚ) (s : ℚ) : Prop := 0 ≤ s ∧ s ^ 2 = pvariance l

/-- Ordinary least-squares slope of the line through
`(0, ys[0]), (1, ys[1]), …, (n-1, ys[n-1])`: the slope
`scipy.stats.linregress` returns in `calculate_lob_gradient`
(`src/flatten/utils/algorithms.py`) when called with `x_values = arange(n)`. -/
def lob_slope (ys : List ℚ) : ℚ :=
  let n : ℚ := ((ys.length : Nat) : ℚ)
  let xbar : ℚ := (((List.range ys.length).map (fun i => ((i : Nat) : ℚ))).sum) / n
  let ybar : ℚ := ys.sum / n
  let num : ℚ := (((List.range ys.length).zip ys).map
      (fun p => (((p.1 : Nat) : ℚ) - xbar) * (p.2 - ybar))).sum
  let den : ℚ := ((List.range ys.length).map (fun i => (((i : Nat) : ℚ) - xbar) ^ 2)).sum
  num / den

/-- The slice `original_readings[:min_index + 1]` that the line-of-best-fit
sanity check regresses over (`y_values` in `create_flattened_readings`). -/
def lob_input (original_readings : List ℚ) (min_index : Nat) : List ℚ :=
  original_readings.take (min_index + 1)

/-- The SVG-coordinate conversion shared by `apply_corrected_cusum_algorithm`
(`src/flatten/utils/algorithms.py`) and
`process_readings_with_corrected_algorithm`
(`src/flatten/apply_corrected_cusum_all.py`): with `margin = 50` and
`plot_height = 400 - 2 * margin`,
`svg_y = margin + plot_height - plot_height * (reading - min_reading) / reading_range`,
where `reading_range` is `max - min`, replaced by 1 when the two coincide. -/
def svg_y_vals (readings : List ℚ) : List ℚ :=
  let margin : ℚ := 50
  let plot_height : ℚ := 400 - 2 * margin
  let min_reading := list_min readings
  let max_reading := list_max readings
  let reading_range := if max_reading ≠ min_reading then max_reading - min_reading else 1
  readings.map (fun reading =>
    margin + plot_height - (plot_height * (reading - min_reading) / reading_range))

/-- The "simple inversion" step `y_inv = np.max(svg_y_vals) - svg_y_vals`
applied after the SVG conversion, in both pipeline variants. -/
def y_inverted (readings : List ℚ) : List ℚ :=
  let svg := svg_y_vals readings
  svg.map (fun y => list_max svg - y)

/-- Embedding of `apply_corrected_cusum_algorithm` from `src/flatten/utils/algorithms.py`:
SVG conversion, inversion, `smooth_curve` smoothing, CUSUM, returning the
trace together with its minimum.  `min(readings)` on an empty list raises in
Python; that case is `none`. -/
def apply_corrected_cusum_algorithm (readings : List ℚ) (k : ℚ) :
    Option (List ℚ × ℚ) :=
  if readings = [] then none
  else
    let y_smooth := smooth_curve (y_inverted readings) 5
    let cusum := compute_negative_cusum y_smooth k
    some (cusum, list_min cusum)

/-- Centered rolling mean of window 5 with `min_periods=1`, i.e.
`pd.Series(y).rolling(window=5, min_periods=1, center=True).mean()`: entry `i`
is the mean of the samples at indices `max(0, i-2) … min(n, i+3) - 1`
(pandas places an odd centered window symmetrically and, with
`min_periods=1`, averages whatever part of it overlaps the series). -/
def pandas_rolling_mean_5 (y : List ℚ) : List ℚ :=
  (List.range y.length).map (fun i =>
    let start := i - 2
    let stop := min y.length (i + 3)
    ((y.drop start).take (stop - start)).sum / ((stop - start : Nat) : ℚ))

/-- Embedding of `process_readings_with_corrected_algorithm` from
`src/flatten/apply_corrected_cusum_all.py`: the same pipeline as
`apply_corrected_cusum_algorithm` but smoothing with the pandas rolling mean.
Again `min(readings)` of an empty list raises, modelled as `none`. -/
def process_readings_with_corrected_algorithm (readings : List ℚ) (k : ℚ) :
    Option (List ℚ) :=
  if readings = [] then none
  else some (compute_negative_cusum (pandas_rolling_mean_5 (y_inverted readings)) k)

/-- The tri-state outcome of `create_flattened_readings`: the source returns
`None` both at the threshold / early-minimum guards ("not needed") and at the
failed sanity checks ("Sanity check failed, don't flatten"); the tags record
which return site fired, following the decision states of the spec. -/
inductive FlattenResult where
  | notNeeded : FlattenResult
  | rejected : FlattenResult
  | accepted : List ℚ → FlattenResult
deriving DecidableEq

/-- The flattening loop of `create_flattened_readings`:
`flattened = original_readings.copy(); for i in range(min_index):
flattened[i] = target_reading + random.uniform(-noise_scale, noise_scale)`.
`rng i a` stands for the `i`-th draw of `random.uniform(-a, a)`. -/
def flatten_loop (target_reading noise_scale : ℚ) (rng : Nat → ℚ → ℚ)
    (min_index : Nat) : Nat → List ℚ → List ℚ
  | _, [] => []
  | i, r :: rest =>
      (if i < min_index then target_reading + rng i noise_scale else r) ::
        flatten_loop target_reading noise_scale rng min_index (i + 1) rest

/-- Embedding of `create_flattened_readings` from `src/flatten/utils/visualization.py`
along the default path where `min_index`, `target_reading`, `avg_first` and
`lob_gradient` are computed rather than caller-supplied (the path all callers
in the repository use, and the one `create_flattened_database_fast.py`
inlines).  `reading_std` stands for `np.std(original_readings)` (see
`is_np_std`); `rng` is the stream of `random.uniform(-a, a)` draws. -/
def create_flattened_readings (original_readings cusum_values : List ℚ)
    (cusum_min threshold : ℚ) (sanity_check sanity_lob : Bool)
    (reading_std : ℚ) (rng : Nat → ℚ → ℚ) : FlattenResult :=
  if cusum_min > threshold then .notNeeded
  else
    let min_index := find_cusum_minimum_index cusum_values
    if min_index ≤ 1 then .notNeeded
    else
      let target_reading := original_readings.getD min_index 0
      let avg_first :=
        if min_index < 5 then np_mean (original_readings.take 2)
        else np_mean (original_readings.take 5)
      if sanity_check = true ∧ target_reading ≥ avg_first then .rejected
      else
        let lob_gradient := lob_slope (lob_input original_readings min_index)
        if sanity_lob = true ∧ lob_gradient ≥ 0 then .rejected
        else
          let noise_scale := reading_std * (1 / 1000)
          .accepted (flatten_loop target_reading noise_scale rng min_index 0
            original_readings)

/-- The flag written by `src/flatten/apply_corrected_cusum_all.py`:
`negative_slope = 1 if cusum_min < cusum_threshold else 0` (strict
less-than). -/
def negative_slope (cusum_min cusum_threshold : ℚ) : Nat :=
  if cusum_min < cusum_threshold then 1 else 0

/-- The caller-side guard in `src/flatten/apply_corrected_cusum_all.py`:
`if len(readings) < 10: print(f"Skipping ID …: insufficient data …"); continue`. -/
def insufficient_data_skip (readings : List ℚ) : Bool :=
  readings.length < 10

/-! Basic facts about the Python `min`/`max` folds. -/

theorem foldl_min_le_init (l : List ℚ) : ∀ b : ℚ, l.foldl min b ≤ b := by
  induction l with
  | nil => intro b; exact le_refl b
  | cons x xs ih =>
      intro b
      exact le_trans (ih (min b x)) (min_le_left b x)

theorem foldl_min_le_mem (l : List ℚ) (a : ℚ) (ha : a ∈ l) :
    ∀ b : ℚ, l.foldl min b ≤ a := by
  induction l with
  | nil => cases ha
  | cons x xs ih =>
      intro b
      rcases List.mem_cons.mp ha with h | h
      · subst h
        exact le_trans (foldl_min_le_init xs (min b a)) (min_le_right b a)
      · exact ih h (min b x)

theorem foldl_min_mem_or (l : List ℚ) :
    ∀ b : ℚ, l.foldl min b = b ∨ l.foldl min b ∈ l := by
  induction l with
  | nil => intro b; exact Or.inl rfl
  | cons x xs ih =>
      intro b
      rcases ih (min b x) with h | h
      · rcases min_cases b x with ⟨hm, _⟩ | ⟨hm, _⟩
        · exact Or.inl (by rw [List.foldl_cons, h, hm])
        · exact Or.inr (by rw [List.foldl_cons, h, hm]; exact List.mem_cons_self x xs)
      · exact Or.inr (List.mem_cons_of_mem x h)

theorem list_min_le (l : List ℚ) (a : ℚ) (ha : a ∈ l) : list_min l ≤ a := by
  cases l with
  | nil => cases ha
  | cons x xs =>
      rcases List.mem_cons.mp ha with h | h
      · subst h; exact foldl_min_le_init xs a
      · exact foldl_min_le_mem xs a h x

theorem list_min_mem (l : List ℚ) (hl : l ≠ []) : list_min l ∈ l := by
  cases l with
  | nil => exact absurd rfl hl
  | cons x xs =>
      rcases foldl_min_mem_or xs x with h | h
      · rw [list_min, h]; exact List.mem_cons_self x xs
      · exact List.mem_cons_of_mem x h

theorem foldl_max_init_le (l : List ℚ) : ∀ b : ℚ, b ≤ l.foldl max b := by
  induction l with
  | nil => intro b; exact le_refl b
  | cons x xs ih =>
      intro b
      exact le_trans (le_max_left b x) (ih (max b x))

theorem foldl_max_mem_le (l : List ℚ) (a : ℚ) (ha : a ∈ l) :
    ∀ b : ℚ, a ≤ l.foldl max b := by
  induction l with
  | nil => cases ha
  | cons x xs ih =>
      intro b
      rcases List.mem_cons.mp ha with h | h
      · subst h
        exact le_trans (le_max_right b a) (foldl_max_init_le xs (max b a))
      · exact ih h (max b x)

theorem le_list_max (l : List ℚ) (a : ℚ) (ha : a ∈ l) : a ≤ list_max l := by
  cases l with
  | nil => cases ha
  | cons x xs =>
      rcases List.mem_cons.mp ha with h | h
      · subst h; exact foldl_max_init_le xs a
      · exact foldl_max_mem_le xs a h x

/-! Facts about `List.getD` access. -/

theorem getD_mem (l : List ℚ) (i : Nat) (h : i < l.length) : l.getD i 0 ∈ l := by
  induction l generalizing i with
  | nil => simp at h
  | cons x xs ih =>
      cases i with
      | zero => simp
      | succ n =>
          simp only [List.getD_cons_succ]
          exact List.mem_cons_of_mem x (ih n (by simpa using h))

theorem getD_map (f : ℚ → ℚ) (l : List ℚ) (i : Nat) (h : i < l.length) :
    (l.map f).getD i 0 = f (l.getD i 0) := by
  induction l generalizing i with
  | nil => simp at h
  | cons x xs ih =>
      cases i with
      | zero => rfl
      | succ n =>
          simp only [List.map_cons, List.getD_cons_succ]
          exact ih n (by simpa using h)

/-! Facts about `index_of_first` (Python `list.index`). -/

theorem index_of_first_lt_length (x : ℚ) (l : List ℚ) (hx : x ∈ l) :
    index_of_first x l < l.length := by
  induction l with
  | nil => cases hx
  | cons y ys ih =>
      by_cases h : y = x
      · simp [index_of_first, h]
      · rcases List.mem_cons.mp hx with h' | h'
        · exact absurd h'.symm h
        · simpa [index_of_first, h] using ih h'

theorem getD_index_of_first (x : ℚ) (l : List ℚ) (hx : x ∈ l) :
    l.getD (index_of_first x l) 0 = x := by
  induction l with
  | nil => cases hx
  | cons y ys ih =>
      by_cases h : y = x
      · simp [index_of_first, h]
      · rcases List.mem_cons.mp hx with h' | h'
        · exact absurd h'.symm h
        · simpa [index_of_first, h] using ih h'

theorem getD_ne_of_lt_index_of_first (x : ℚ) (l : List ℚ) (j : Nat)
    (hj : j < index_of_first x l) : l.getD j 0 ≠ x := by
  induction l generalizing j with
  | nil => simp [index_of_first] at hj
  | cons y ys ih =>
      by_cases h : y = x
      · simp [index_of_first, h] at hj
      · cases j with
        | zero => simpa using h
        | succ n =>
            simp only [List.getD_cons_succ]
            exact ih n (by simpa [index_of_first, h] using hj)

/-! Facts about the CUSUM recurrence. -/

theorem cusumFrom_length (k : ℚ) : ∀ (s prev : ℚ) (l : List ℚ),
    (cusumFrom k s prev l).length = l.length := by
  intro s prev l
  induction l generalizing s prev with
  | nil => rfl
  | cons c rest ih => simp [cusumFrom, ih]

theorem cusumFrom_nonpos (k : ℚ) : ∀ (s prev : ℚ) (l : List ℚ),
    ∀ a ∈ cusumFrom k s prev l, a ≤ 0 := by
  intro s prev l
  induction l generalizing s prev with
  | nil => intro a ha; cases ha
  | cons c rest ih =>
      intro a ha
      rcases List.mem_cons.mp ha with h | h
      · subst h; exact min_le_left 0 _
      · exact ih _ _ a h

theorem compute_negative_cusum_length (y : List ℚ) (k : ℚ) (hy : y ≠ []) :
    (compute_negative_cusum y k).length = y.length := by
  cases y with
  | nil => exact absurd rfl hy
  | cons y0 rest => simp [compute_negative_cusum, cusumFrom_length]

theorem cusumFrom_recurrence (k : ℚ) : ∀ (l : List ℚ) (s prev : ℚ) (i : Nat),
    i + 1 < (s :: cusumFrom k s prev l).length →
    (s :: cusumFrom k s prev l).getD (i + 1) 0 =
      min 0 ((s :: cusumFrom k s prev l).getD i 0 +
        (((prev :: l).getD (i + 1) 0 - (prev :: l).getD i 0) - k)) := by
  intro l
  induction l with
  | nil => intro s prev i hi; simp [cusumFrom] at hi
  | cons c rest ih =>
      intro s prev i hi
      cases i with
      | zero => simp [cusumFrom, cusumStep]
      | succ j =>
          have hj : j + 1 < (cusumStep k s prev c :: cusumFrom k (cusumStep k s prev c) c rest).length := by
            have : j + 2 < (s :: cusumFrom k s prev (c :: rest)).length := hi
            simpa [cusumFrom, cusumFrom_length] using this
          have := ih (cusumStep k s prev c) c j hj
          simpa [cusumFrom, List.getD_cons_succ] using this

/-- The full contract of the CUSUM detector for a sequence `y` and slack `k`:
trace length, `trace[0] = 0`, the step recurrence, and the characterisation of
`min_value = min(trace)` together with the leftmost-minimum property of
`find_cusum_minimum_index`. -/
def CusumDetectorSpec (y : List ℚ) (k : ℚ) : Prop :=
  (compute_negative_cusum y k).length = y.length ∧
  (compute_negative_cusum y k).getD 0 0 = 0 ∧
  (∀ i : Nat, i + 1 < y.length →
    (compute_negative_cusum y k).getD (i + 1) 0 =
      min 0 ((compute_negative_cusum y k).getD i 0 +
        ((y.getD (i + 1) 0 - y.getD i 0) - k))) ∧
  list_min (compute_negative_cusum y k) ∈ compute_negative_cusum y k ∧
  (∀ j : Nat, j < (compute_negative_cusum y k).length →
    list_min (compute_negative_cusum y k) ≤ (compute_negative_cusum y k).getD j 0) ∧
  find_cusum_minimum_index (compute_negative_cusum y k) <
    (compute_negative_cusum y k).length ∧
  (compute_negative_cusum y k).getD
      (find_cusum_minimum_index (compute_negative_cusum y k)) 0 =
    list_min (compute_negative_cusum y k) ∧
  (∀ j : Nat, j < find_cusum_minimum_index (compute_negative_cusum y k) →
    (compute_negative_cusum y k).getD j 0 ≠ list_min (compute_negative_cusum y k))

/-- C1: for every normalized sequence of length n ≥ 1 and every real slack k,
the CUSUM detector returns a trace with trace[0] = 0 and, for i = 1..n-1,
trace[i] = min(0, trace[i-1] + ((normalized[i] - normalized[i-1]) - k));
min_value is the minimum of the trace and change_point_index is the index of
the first (leftmost) occurrence of that minimum. -/
theorem C1_cusum_detector (y : List ℚ) (k : ℚ) (hy : 1 ≤ y.length) :
    CusumDetectorSpec y k := by
  cases y with
  | nil => simp at hy
  | cons y0 rest =>
      have hne : compute_negative_cusum (y0 :: rest) k ≠ [] := by
        simp [compute_negative_cusum]
      have hmem := list_min_mem _ hne
      unfold CusumDetectorSpec
      refine ⟨by simp [compute_negative_cusum, cusumFrom_length], rfl, ?_, hmem,
        ?_, ?_, ?_, ?_⟩
      · intro i hi
        have h2 : i + 1 < ((0 : ℚ) :: cusumFrom k 0 y0 rest).length := by
          simpa [cusumFrom_length] using hi
        simpa [compute_negative_cusum] using cusumFrom_recurrence k rest 0 y0 i h2
      · intro j hj
        exact list_min_le _ _ (getD_mem _ j hj)
      · exact index_of_first_lt_length _ _ hmem
      · exact getD_index_of_first _ _ hmem
      · intro j hj
        exact getD_ne_of_lt_index_of_first _ _ j hj

/-- Witness for C1 at the worked example of the spec:
readings [0, 0, -50, -50] with k = 0. -/
theorem C1_cusum_detector_witness :
    1 ≤ ([(0 : ℚ), 0, -50, -50]).length ∧ CusumDetectorSpec [0, 0, -50, -50] 0 :=
  ⟨by simp, C1_cusum_detector [0, 0, -50, -50] 0 (by simp)⟩

/-- The invariants proved for claim C6: length preservation, zero head, and
nonpositivity of every trace entry. -/
def TraceInvariants (y : List ℚ) (k : ℚ) : Prop :=
  (compute_negative_cusum y k).length = y.length ∧
  (compute_negative_cusum y k).getD 0 0 = 0 ∧
  ∀ i : Nat, i < (compute_negative_cusum y k).length →
    (compute_negative_cusum y k).getD i 0 ≤ 0

/-- C6: for every non-empty normalized sequence and every slack k, the CUSUM
trace has the same length as the input, trace[0] = 0, and trace[i] ≤ 0 for
every index i. -/
theorem C6_trace_invariants (y : List ℚ) (k : ℚ) (hy : y ≠ []) :
    TraceInvariants y k := by
  cases y with
  | nil => exact absurd rfl hy
  | cons y0 rest =>
      unfold TraceInvariants
      refine ⟨by simp [compute_negative_cusum, cusumFrom_length], rfl, ?_⟩
      intro i hi
      have hm : (compute_negative_cusum (y0 :: rest) k).getD i 0 ∈
          (0 : ℚ) :: cusumFrom k 0 y0 rest := by
        simpa [compute_negative_cusum] using getD_mem _ i hi
      rcases List.mem_cons.mp hm with h | h
      · exact le_of_eq h
      · exact cusumFrom_nonpos k 0 y0 rest _ h

/-- Witness for C6 at readings [0, 0, -50, -50] with k = 0. -/
theorem C6_trace_invariants_witness :
    ([(0 : ℚ), 0, -50, -50] ≠ []) ∧ TraceInvariants [0, 0, -50, -50] 0 :=
  ⟨by simp, C6_trace_invariants [0, 0, -50, -50] 0 (by simp)⟩

/-! Behaviour of the pipeline on constant (flat) sequences. -/

theorem foldl_min_replicate_self (c : ℚ) : ∀ m : Nat,
    (List.replicate m c).foldl min c = c := by
  intro m
  induction m with
  | zero => rfl
  | succ p ih => simpa [List.replicate_succ, min_self] using ih

theorem foldl_max_replicate_self (c : ℚ) : ∀ m : Nat,
    (List.replicate m c).foldl max c = c := by
  intro m
  induction m with
  | zero => rfl
  | succ p ih => simpa [List.replicate_succ, max_self] using ih

theorem list_min_replicate (c : ℚ) (n : Nat) (hn : 1 ≤ n) :
    list_min (List.replicate n c) = c := by
  cases n with
  | zero => simp at hn
  | succ m => simp [List.replicate_succ, list_min, foldl_min_replicate_self]

theorem list_max_replicate (c : ℚ) (n : Nat) (hn : 1 ≤ n) :
    list_max (List.replicate n c) = c := by
  cases n with
  | zero => simp at hn
  | succ m => simp [List.replicate_succ, list_max, foldl_max_replicate_self]

theorem svg_y_vals_replicate (c : ℚ) (n : Nat) (hn : 1 ≤ n) :
    svg_y_vals (List.replicate n c) = List.replicate n 350 := by
  have hmin := list_min_replicate c n hn
  have hmax := list_max_replicate c n hn
  simp only [svg_y_vals, hmin, hmax, ne_eq, List.map_replicate]
  norm_num

theorem y_inverted_replicate (c : ℚ) (n : Nat) (hn : 1 ≤ n) :
    y_inverted (List.replicate n c) = List.replicate n 0 := by
  simp only [y_inverted]
  rw [svg_y_vals_replicate c n hn, list_max_replicate 350 n hn]
  simp

theorem smooth_curve_replicate_zero (n : Nat) :
    smooth_curve (List.replicate n (0 : ℚ)) 5 = List.replicate n 0 := by
  unfold smooth_curve
  by_cases h : (List.replicate n (0 : ℚ)).length < 5
  · rw [if_pos h]
  · rw [if_neg h]
    simp only [List.length_replicate]
    refine List.eq_replicate_iff.mpr ⟨by simp, ?_⟩
    intro b hb
    simp only [List.mem_map] at hb
    obtain ⟨i, _, hi⟩ := hb
    rw [← hi]
    simp [List.drop_replicate, List.take_replicate, List.sum_replicate]

theorem cusumFrom_replicate_zero : ∀ m : Nat,
    cusumFrom 0 0 0 (List.replicate m (0 : ℚ)) = List.replicate m 0 := by
  intro m
  induction m with
  | zero => rfl
  | succ p ih =>
      have hstep : cusumStep 0 0 0 0 = 0 := by simp [cusumStep]
      simp [List.replicate_succ, cusumFrom, hstep, ih]

theorem compute_negative_cusum_replicate_zero (n : Nat) (hn : 1 ≤ n) :
    compute_negative_cusum (List.replicate n (0 : ℚ)) 0 = List.replicate n 0 := by
  cases n with
  | zero => simp at hn
  | succ m =>
      simp [List.replicate_succ, compute_negative_cusum, cusumFrom_replicate_zero]

theorem find_cusum_minimum_index_replicate_zero (n : Nat) (hn : 1 ≤ n) :
    find_cusum_minimum_index (List.replicate n (0 : ℚ)) = 0 := by
  cases n with
  | zero => simp at hn
  | succ m =>
      have h0 : list_min (List.replicate (m + 1) (0 : ℚ)) = 0 :=
        list_min_replicate 0 (m + 1) (by omega)
      rw [find_cusum_minimum_index, h0]
      simp [List.replicate_succ, index_of_first]

/-- C8: for every constant (flat) reading sequence of length ≥ 2 (max equals
min), the pipeline raises no error: the normalizer substitutes the fixed
denominator 1 in place of the zero range, and the resulting CUSUM trace (at
the default slack k = 0) is identically 0, so change_point_index = 0. -/
theorem C8_flat_sequence (c : ℚ) (n : Nat) (hn : 2 ≤ n) :
    apply_corrected_cusum_algorithm (List.replicate n c) 0 =
      some (List.replicate n 0, 0) ∧
    find_cusum_minimum_index (List.replicate n 0) = 0 := by
  have hn1 : 1 ≤ n := by omega
  have hne : List.replicate n c ≠ [] := by
    intro h
    have := congrArg List.length h
    simp at this
    omega
  constructor
  · simp [apply_corrected_cusum_algorithm, hne, y_inverted_replicate c n hn1,
      smooth_curve_replicate_zero, compute_negative_cusum_replicate_zero n hn1,
      list_min_replicate 0 n hn1]
  · exact find_cusum_minimum_index_replicate_zero n hn1

/-- Witness for C8 at the flat sequence of four sevens. -/
theorem C8_flat_sequence_witness :
    2 ≤ 4 ∧
    (apply_corrected_cusum_algorithm (List.replicate 4 (7 : ℚ)) 0 =
        some (List.replicate 4 0, 0) ∧
      find_cusum_minimum_index (List.replicate 4 (0 : ℚ)) = 0) :=
  ⟨by norm_num, C8_flat_sequence 7 4 (by norm_num)⟩

/-! Length preservation and order behaviour of the normalizer. -/

theorem smooth_curve_length (y : List ℚ) (w : Nat) :
    (smooth_curve y w).length = y.length := by
  unfold smooth_curve
  by_cases h : y.length < w
  · rw [if_pos h]
  · rw [if_neg h]; simp

theorem svg_y_vals_length (readings : List ℚ) :
    (svg_y_vals readings).length = readings.length := by
  simp [svg_y_vals]

theorem y_inverted_length (readings : List ℚ) :
    (y_inverted readings).length = readings.length := by
  simp [y_inverted, svg_y_vals]

theorem svg_y_vals_getD (readings : List ℚ) (i : Nat) (hi : i < readings.length) :
    (svg_y_vals readings).getD i 0 =
      50 + (400 - 2 * 50) -
        ((400 - 2 * 50) * (readings.getD i 0 - list_min readings) /
          (if list_max readings ≠ list_min readings
            then list_max readings - list_min readings else 1)) := by
  simp only [svg_y_vals]
  exact getD_map _ readings i hi

theorem y_inverted_getD (readings : List ℚ) (i : Nat) (hi : i < readings.length) :
    (y_inverted readings).getD i 0 =
      list_max (svg_y_vals readings) - (svg_y_vals readings).getD i 0 := by
  simp only [y_inverted]
  exact getD_map _ _ i (by rw [svg_y_vals_length]; exact hi)

/-- Strict monotonicity of the pre-smoothing stage of the normalizer: a higher
raw reading yields a strictly higher inverted rescaled value. -/
theorem y_inverted_strict_mono (readings : List ℚ) (i j : Nat)
    (hi : i < readings.length) (hj : j < readings.length)
    (hij : readings.getD j 0 < readings.getD i 0) :
    (y_inverted readings).getD j 0 < (y_inverted readings).getD i 0 := by
  have hmn_le : list_min readings ≤ readings.getD j 0 :=
    list_min_le _ _ (getD_mem _ j hj)
  have hle_mx : readings.getD i 0 ≤ list_max readings :=
    le_list_max _ _ (getD_mem _ i hi)
  have hlt : list_min readings < list_max readings :=
    lt_of_le_of_lt hmn_le (lt_of_lt_of_le hij hle_mx)
  have hne : list_max readings ≠ list_min readings := ne_of_gt hlt
  have hpos : (0 : ℚ) < list_max readings - list_min readings := by linarith
  have hmul : (400 - 2 * 50 : ℚ) * (readings.getD j 0 - list_min readings) <
      (400 - 2 * 50) * (readings.getD i 0 - list_min readings) := by
    have h300 : (0 : ℚ) < 400 - 2 * 50 := by norm_num
    nlinarith
  have hdiv :
      (400 - 2 * 50 : ℚ) * (readings.getD j 0 - list_min readings) /
          (list_max readings - list_min readings) <
        (400 - 2 * 50) * (readings.getD i 0 - list_min readings) /
          (list_max readings - list_min readings) :=
    (div_lt_div_iff_of_pos_right hpos).mpr hmul
  rw [y_inverted_getD readings i hi, y_inverted_getD readings j hj,
    svg_y_vals_getD readings i hi, svg_y_vals_getD readings j hj, if_pos hne]
  linarith

/-- The properties proved for claim C7: the normalized sequence (inversion
followed by window-5 smoothing) keeps the input length; the monotone
relationship between raw readings and normalized values holds for the
inverted rescaled sequence before smoothing, and the smoothing step is the
identity on inputs shorter than the window. -/
def NormalizerSpec (readings : List ℚ) : Prop :=
  (smooth_curve (y_inverted readings) 5).length = readings.length ∧
  (∀ i j : Nat, i < readings.length → j < readings.length →
    readings.getD j 0 < readings.getD i 0 →
    (y_inverted readings).getD j 0 < (y_inverted readings).getD i 0) ∧
  (readings.length < 5 → smooth_curve (y_inverted readings) 5 = y_inverted readings)

/-- C7 (amended): for every reading sequence of length ≥ 2, the normalized
sequence has the same length as the input; the strictly monotone relation
between raw readings holds for the inverted rescaled sequence before the
window-5 moving average (and hence for the normalized sequence itself when
the input is shorter than the window, where smoothing is the identity), but
not in general after smoothing — see the counterexample. -/
theorem C7_normalizer_monotone (readings : List ℚ) (_hlen : 2 ≤ readings.length) :
    NormalizerSpec readings := by
  unfold NormalizerSpec
  refine ⟨by rw [smooth_curve_length, y_inverted_length], ?_, ?_⟩
  · intro i j hi hj hij
    exact y_inverted_strict_mono readings i j hi hj hij
  · intro hshort
    unfold smooth_curve
    rw [if_pos (by rw [y_inverted_length]; exact hshort)]

/-- Witness for C7 at readings [0, 0, -50, -50]. -/
theorem C7_normalizer_monotone_witness :
    2 ≤ ([(0 : ℚ), 0, -50, -50]).length ∧ NormalizerSpec [0, 0, -50, -50] :=
  ⟨by simp, C7_normalizer_monotone [0, 0, -50, -50] (by simp)⟩

/-- Counterexample to C7 as stated: for readings [0, 100, 0, 0, 0] the raw
reading at index 1 exceeds the one at index 0, yet the normalized (smoothed)
sequence [100, 75, 60, 75, 0] has normalized[1] = 75 < 100 = normalized[0]:
the truncated-window moving average averages over windows of different sizes
near the boundary and breaks the pointwise monotone relation. -/
theorem C7_counterexample :
    ([(0 : ℚ), 100, 0, 0, 0]).getD 0 0 < ([(0 : ℚ), 100, 0, 0, 0]).getD 1 0 ∧
    ¬ ((smooth_curve (y_inverted [(0 : ℚ), 100, 0, 0, 0]) 5).getD 0 0 <
        (smooth_curve (y_inverted [(0 : ℚ), 100, 0, 0, 0]) 5).getD 1 0) := by
  have h1 : svg_y_vals [(0 : ℚ), 100, 0, 0, 0] = [350, 50, 350, 350, 350] := by
    norm_num [svg_y_vals, list_min, list_max, min_def, max_def]
  have h2 : y_inverted [(0 : ℚ), 100, 0, 0, 0] = [0, 300, 0, 0, 0] := by
    rw [y_inverted, h1]
    norm_num [list_max, max_def]
  have h3 : smooth_curve [(0 : ℚ), 300, 0, 0, 0] 5 = [100, 75, 60, 75, 0] := by
    norm_num [smooth_curve, List.range_succ, min_def]
  rw [h2, h3]
  norm_num

/-! Equivalence of the two smoothing implementations. -/

/-- On inputs of length at least the window, the truncated-window moving
average of `smooth_curve` agrees with the pandas centered rolling mean of
window 5 with `min_periods=1`. -/
theorem smooth_curve_eq_pandas_rolling (y : List ℚ) (h : 5 ≤ y.length) :
    smooth_curve y 5 = pandas_rolling_mean_5 y := by
  unfold smooth_curve pandas_rolling_mean_5
  rw [if_neg (by omega)]

/-- C10: for every reading sequence of length ≥ 5 and every slack k, the two
pipeline implementations — smoothing with the hand-rolled truncated-window
moving average (`smooth_curve`, in `apply_corrected_cusum_algorithm`) and
smoothing with a pandas centered rolling mean of window 5 with min_periods 1
(in `process_readings_with_corrected_algorithm`) — produce element-wise equal
CUSUM traces. -/
theorem C10_pipelines_agree (readings : List ℚ) (k : ℚ) (h5 : 5 ≤ readings.length) :
    process_readings_with_corrected_algorithm readings k =
      (apply_corrected_cusum_algorithm readings k).map Prod.fst := by
  have hne : readings ≠ [] := by
    intro h
    rw [h] at h5
    simp at h5
  have hlen : 5 ≤ (y_inverted readings).length := by
    rw [y_inverted_length]
    exact h5
  simp only [process_readings_with_corrected_algorithm, apply_corrected_cusum_algorithm]
  rw [if_neg hne, if_neg hne, ← smooth_curve_eq_pandas_rolling _ hlen]
  rfl

/-- Witness for C10 at readings [0, 100, 0, 0, 0] with k = 0. -/
theorem C10_pipelines_agree_witness :
    5 ≤ ([(0 : ℚ), 100, 0, 0, 0]).length ∧
    process_readings_with_corrected_algorithm [(0 : ℚ), 100, 0, 0, 0] 0 =
      (apply_corrected_cusum_algorithm [(0 : ℚ), 100, 0, 0, 0] 0).map Prod.fst :=
  ⟨by simp, C10_pipelines_agree [0, 100, 0, 0, 0] 0 (by simp)⟩

/-! Behaviour on too-short inputs. -/

theorem svg_y_vals_singleton (c : ℚ) : svg_y_vals [c] = [350] := by
  norm_num [svg_y_vals, list_min, list_max]

theorem y_inverted_singleton (c : ℚ) : y_inverted [c] = [0] := by
  rw [y_inverted, svg_y_vals_singleton]
  norm_num [list_max]

/-- C9 (amended): a reading sequence shorter than 2 elements is skipped by
the caller in `apply_corrected_cusum_all.py`, whose guard prints
"insufficient data" for any sequence of fewer than 10 readings; the engine
itself does not fail fast: on a 1-element sequence it proceeds and returns
the trivial trace [0] with minimum 0 (whose change point 0 is then discarded
by the `min_index ≤ 1` guard, so no change point is fabricated), and on an
empty sequence it raises only the generic `ValueError` of Python `min`. -/
theorem C9_insufficient_data (c k : ℚ) (readings : List ℚ)
    (hshort : readings.length < 2) :
    insufficient_data_skip readings = true ∧
    apply_corrected_cusum_algorithm [] k = none ∧
    apply_corrected_cusum_algorithm [c] k = some ([0], 0) := by
  refine ⟨?_, ?_, ?_⟩
  · simp only [insufficient_data_skip, decide_eq_true_eq]
    omega
  · simp [apply_corrected_cusum_algorithm]
  · have hsmooth : smooth_curve [(0 : ℚ)] 5 = [0] := by
      norm_num [smooth_curve]
    have hcusum : compute_negative_cusum [(0 : ℚ)] k = [0] := rfl
    simp [apply_corrected_cusum_algorithm, y_inverted_singleton, hsmooth, hcusum,
      list_min]

/-- Witness for C9 at the singleton sequence [5]. -/
theorem C9_insufficient_data_witness :
    ([(5 : ℚ)]).length < 2 ∧
    (insufficient_data_skip [(5 : ℚ)] = true ∧
      apply_corrected_cusum_algorithm [] (1 : ℚ) = none ∧
      apply_corrected_cusum_algorithm [(3 : ℚ)] 1 = some ([0], 0)) :=
  ⟨by simp, C9_insufficient_data 3 1 [5] (by simp)⟩

/-- Counterexample to C9 as stated: on the 1-element sequence [0] (shorter
than 2 elements) the engine does not fail with an "insufficient data" error;
it proceeds and returns the trace [0] with minimum 0. -/
theorem C9_counterexample :
    apply_corrected_cusum_algorithm [(0 : ℚ)] 0 = some ([0], 0) := by
  have hsmooth : smooth_curve [(0 : ℚ)] 5 = [0] := by
    norm_num [smooth_curve]
  simp [apply_corrected_cusum_algorithm, y_inverted_singleton, hsmooth,
    compute_negative_cusum, cusumFrom, list_min]

/-! Facts about the corrector loop and the decision flow of
`create_flattened_readings`. -/

theorem flatten_loop_length (t ns : ℚ) (rng : Nat → ℚ → ℚ) (m : Nat) :
    ∀ (i : Nat) (l : List ℚ), (flatten_loop t ns rng m i l).length = l.length := by
  intro i l
  induction l generalizing i with
  | nil => rfl
  | cons r rest ih => simp [flatten_loop, ih]

theorem flatten_loop_getD (t ns : ℚ) (rng : Nat → ℚ → ℚ) (m : Nat) :
    ∀ (i j : Nat) (l : List ℚ), j < l.length →
      (flatten_loop t ns rng m i l).getD j 0 =
        if i + j < m then t + rng (i + j) ns else l.getD j 0 := by
  intro i j l
  induction l generalizing i j with
  | nil => intro h; simp at h
  | cons r rest ih =>
      intro h
      cases j with
      | zero => simp [flatten_loop]
      | succ n =>
          have harw : i + 1 + n = i + (n + 1) := by omega
          have hrec := ih (i + 1) n (by simpa using h)
          simp only [flatten_loop, List.getD_cons_succ]
          rw [hrec, harw]

/-- Inversion of the accepted case of `create_flattened_readings`: acceptance
implies the threshold test and the early-minimum guard both passed, and pins
down the returned list. -/
theorem create_flattened_accepted (readings cusum : List ℚ)
    (cusum_min threshold std : ℚ) (sc sl : Bool) (rng : Nat → ℚ → ℚ)
    (flattened : List ℚ)
    (h : create_flattened_readings readings cusum cusum_min threshold sc sl std rng
      = .accepted flattened) :
    ¬ cusum_min > threshold ∧ 1 < find_cusum_minimum_index cusum ∧
    flattened = flatten_loop (readings.getD (find_cusum_minimum_index cusum) 0)
      (std * (1 / 1000)) rng (find_cusum_minimum_index cusum) 0 readings := by
  simp only [create_flattened_readings] at h
  by_cases h1 : cusum_min > threshold
  · rw [if_pos h1] at h
    exact absurd h (by simp)
  · rw [if_neg h1] at h
    by_cases h2 : find_cusum_minimum_index cusum ≤ 1
    · rw [if_pos h2] at h
      exact absurd h (by simp)
    · rw [if_neg h2] at h
      by_cases h3 : sc = true ∧ readings.getD (find_cusum_minimum_index cusum) 0 ≥
          (if find_cusum_minimum_index cusum < 5 then np_mean (readings.take 2)
            else np_mean (readings.take 5))
      · rw [if_pos h3] at h
        exact absurd h (by simp)
      · rw [if_neg h3] at h
        by_cases h4 : sl = true ∧
            lob_slope (lob_input readings (find_cusum_minimum_index cusum)) ≥ 0
        · rw [if_pos h4] at h
          exact absurd h (by simp)
        · rw [if_neg h4] at h
          refine ⟨h1, by omega, ?_⟩
          injection h with h'
          exact h'.symm

/-- The frame conditions proved for claim C2: the corrected list keeps the
input length, agrees with the input from the change point on, and before it
stays within `reading_std * 0.001` of the reading at the change point. -/
def CorrectorFrameSpec (readings cusum : List ℚ) (reading_std : ℚ)
    (flattened : List ℚ) : Prop :=
  flattened.length = readings.length ∧
  (∀ i : Nat, find_cusum_minimum_index cusum ≤ i → i < readings.length →
    flattened.getD i 0 = readings.getD i 0) ∧
  (∀ i : Nat, i < find_cusum_minimum_index cusum →
    |flattened.getD i 0 - readings.getD (find_cusum_minimum_index cusum) 0| ≤
      reading_std * (1 / 1000))

/-- C2: for every accepted decision with change point index m into a reading
sequence of length n, the corrected sequence has length n, positions m..n-1
equal the original readings exactly (the input list itself is never mutated:
the corrector builds a fresh list), and every position i < m equals
readings[m] plus a jitter of magnitude at most
noise_scale = 0.001 × stddev(readings). -/
theorem C2_corrector_frame (readings cusum : List ℚ)
    (cusum_min threshold reading_std : ℚ) (sc sl : Bool)
    (rng : Nat → ℚ → ℚ) (flattened : List ℚ)
    (hstd : is_np_std readings reading_std)
    (hrng : ∀ (i : Nat) (a : ℚ), 0 ≤ a → -a ≤ rng i a ∧ rng i a ≤ a)
    (hlen : cusum.length = readings.length)
    (hacc : create_flattened_readings readings cusum cusum_min threshold sc sl
      reading_std rng = .accepted flattened) :
    CorrectorFrameSpec readings cusum reading_std flattened := by
  obtain ⟨-, hm, hflat⟩ := create_flattened_accepted readings cusum cusum_min
    threshold reading_std sc sl rng flattened hacc
  have hne : cusum ≠ [] := by
    intro hc
    subst hc
    simp [find_cusum_minimum_index, list_min, index_of_first] at hm
  have hmlt : find_cusum_minimum_index cusum < cusum.length :=
    index_of_first_lt_length _ _ (list_min_mem _ hne)
  have hmlt' : find_cusum_minimum_index cusum < readings.length := hlen ▸ hmlt
  subst hflat
  unfold CorrectorFrameSpec
  refine ⟨flatten_loop_length _ _ _ _ 0 readings, ?_, ?_⟩
  · intro i him hilt
    rw [flatten_loop_getD _ _ _ _ 0 i readings hilt, if_neg (by omega)]
  · intro i hi
    have hilt : i < readings.length := lt_trans hi hmlt'
    have hns : 0 ≤ reading_std * (1 / 1000) :=
      mul_nonneg hstd.1 (by norm_num)
    obtain ⟨hlo, hhi⟩ := hrng (0 + i) (reading_std * (1 / 1000)) hns
    rw [flatten_loop_getD _ _ _ _ 0 i readings hilt, if_pos (by omega), abs_le]
    constructor <;> linarith

/-- Witness for C2 at the spec's worked example, with both sanity checks off,
standard deviation 25 and a zero jitter stream. -/
theorem C2_corrector_frame_witness :
    is_np_std [(0 : ℚ), 0, -50, -50] 25 ∧
    create_flattened_readings [(0 : ℚ), 0, -50, -50] [(0 : ℚ), 0, -50, -50]
      (-50) (-40) false false 25 (fun _ _ => 0) = .accepted [-50, -50, -50, -50] ∧
    CorrectorFrameSpec [(0 : ℚ), 0, -50, -50] [(0 : ℚ), 0, -50, -50] 25
      [-50, -50, -50, -50] := by
  have hstd : is_np_std [(0 : ℚ), 0, -50, -50] 25 := by
    constructor
    · norm_num
    · norm_num [pvariance, np_mean]
  have hacc : create_flattened_readings [(0 : ℚ), 0, -50, -50]
      [(0 : ℚ), 0, -50, -50] (-50) (-40) false false 25 (fun _ _ => 0) =
      .accepted [-50, -50, -50, -50] := by
    norm_num [create_flattened_readings, find_cusum_minimum_index, list_min,
      index_of_first, min_def, flatten_loop]
  exact ⟨hstd, hacc,
    C2_corrector_frame [(0 : ℚ), 0, -50, -50] [(0 : ℚ), 0, -50, -50] (-50) (-40)
      25 false false (fun _ _ => 0) [-50, -50, -50, -50] hstd
      (fun i a ha => ⟨neg_nonpos.mpr ha, ha⟩) (by simp) hacc⟩

/-- C3 (amended): the decision is *not needed* whenever min_value > threshold
(and also, separately, when the change point index is ≤ 1); when
min_value ≤ threshold and change_point_index > 1 and all enabled checks pass
(here: none enabled) the decision is *accepted*, so a record whose CUSUM
minimum equals the threshold is corrected; however the negative-slope flag of
`apply_corrected_cusum_all.py` uses a strict comparison, so that record is
not flagged. -/
theorem C3_threshold_decision (readings cusum : List ℚ)
    (cusum_min threshold std : ℚ) (rng : Nat → ℚ → ℚ) :
    (∀ sc sl : Bool, cusum_min > threshold →
      create_flattened_readings readings cusum cusum_min threshold sc sl std rng =
        .notNeeded) ∧
    (cusum_min ≤ threshold → 1 < find_cusum_minimum_index cusum →
      ∃ l, create_flattened_readings readings cusum cusum_min threshold false false
        std rng = .accepted l) ∧
    (cusum_min = threshold → negative_slope cusum_min threshold = 0) := by
  refine ⟨?_, ?_, ?_⟩
  · intro sc sl h
    simp only [create_flattened_readings]
    rw [if_pos h]
  · intro hle hm
    simp only [create_flattened_readings]
    rw [if_neg (not_lt.mpr hle), if_neg (by omega), if_neg (by simp),
      if_neg (by simp)]
    exact ⟨_, rfl⟩
  · intro heq
    simp [negative_slope, heq]

/-- Witness for C3 at a record whose CUSUM minimum −40 equals the threshold
−40: the correction is produced and the flag is 0. -/
theorem C3_threshold_decision_witness :
    ((-40 : ℚ) ≤ -40) ∧ 1 < find_cusum_minimum_index [(0 : ℚ), 0, -40, -40] ∧
    (∃ l, create_flattened_readings [(0 : ℚ), 0, -40, -40] [(0 : ℚ), 0, -40, -40]
      (-40) (-40) false false 25 (fun _ _ => 0) = .accepted l) ∧
    negative_slope (-40 : ℚ) (-40) = 0 := by
  have hm2 : find_cusum_minimum_index [(0 : ℚ), 0, -40, -40] = 2 := by
    norm_num [find_cusum_minimum_index, list_min, index_of_first, min_def]
  refine ⟨by norm_num, by rw [hm2]; norm_num, ?_, ?_⟩
  · exact (C3_threshold_decision [(0 : ℚ), 0, -40, -40] [(0 : ℚ), 0, -40, -40]
      (-40) (-40) 25 (fun _ _ => 0)).2.1 (by norm_num) (by rw [hm2]; norm_num)
  · exact (C3_threshold_decision [(0 : ℚ), 0, -40, -40] [(0 : ℚ), 0, -40, -40]
      (-40) (-40) 25 (fun _ _ => 0)).2.2 rfl

/-- Counterexample to C3 as stated ("corrected **and flagged**"): a record
whose CUSUM minimum −40 equals the threshold −40 is corrected (the decision
is accepted and a flattened list is produced), yet
`negative_slope = 1 if cusum_min < cusum_threshold else 0` is strict, so the
record is not flagged: the flag is 0. -/
theorem C3_counterexample :
    create_flattened_readings [(0 : ℚ), 0, -40, -40] [(0 : ℚ), 0, -40, -40]
      (-40) (-40) false false 25 (fun _ _ => 0) = .accepted [-40, -40, -40, -40] ∧
    negative_slope (-40 : ℚ) (-40) = 0 := by
  constructor
  · norm_num [create_flattened_readings, find_cusum_minimum_index, list_min,
      index_of_first, min_def, flatten_loop]
  · norm_num [negative_slope]

/-- C4: when the average-comparison check is enabled and
change_point_index m > 1 (with the threshold test passed), the check passes
iff readings[m] < baseline, where baseline is the mean of readings[0:2] when
m < 5 and the mean of readings[0:5] otherwise; if it fails the decision is
*rejected by sanity check* and no correction is applied, and if it passes
(with the other check disabled) the decision is accepted. -/
theorem C4_average_check (readings cusum : List ℚ)
    (cusum_min threshold std : ℚ) (rng : Nat → ℚ → ℚ)
    (hle : cusum_min ≤ threshold) (hm : 1 < find_cusum_minimum_index cusum) :
    (readings.getD (find_cusum_minimum_index cusum) 0 ≥
        (if find_cusum_minimum_index cusum < 5 then np_mean (readings.take 2)
          else np_mean (readings.take 5)) →
      ∀ sl : Bool, create_flattened_readings readings cusum cusum_min threshold
        true sl std rng = .rejected) ∧
    (readings.getD (find_cusum_minimum_index cusum) 0 <
        (if find_cusum_minimum_index cusum < 5 then np_mean (readings.take 2)
          else np_mean (readings.take 5)) →
      ∃ l, create_flattened_readings readings cusum cusum_min threshold true false
        std rng = .accepted l) := by
  constructor
  · intro hge sl
    simp only [create_flattened_readings]
    rw [if_neg (not_lt.mpr hle), if_neg (by omega), if_pos ⟨by simp, hge⟩]
  · intro hlt
    simp only [create_flattened_readings]
    rw [if_neg (not_lt.mpr hle), if_neg (by omega),
      if_neg (by rintro ⟨-, h⟩; exact absurd h (not_le.mpr hlt)),
      if_neg (by simp)]
    exact ⟨_, rfl⟩

/-- Witness for C4 at the spec's average-check counterexample: raw readings
[5, 5, 50, 50] with change point 2 give baseline mean(5,5) = 5 and target 50,
so the enabled check fails and the decision is rejected. -/
theorem C4_average_check_witness :
    ((-50 : ℚ) ≤ -40) ∧ 1 < find_cusum_minimum_index [(0 : ℚ), 0, -50, -50] ∧
    create_flattened_readings [(5 : ℚ), 5, 50, 50] [(0 : ℚ), 0, -50, -50]
      (-50) (-40) true false 25 (fun _ _ => 0) = .rejected := by
  have hm2 : find_cusum_minimum_index [(0 : ℚ), 0, -50, -50] = 2 := by
    norm_num [find_cusum_minimum_index, list_min, index_of_first, min_def]
  refine ⟨by norm_num, by rw [hm2]; norm_num, ?_⟩
  refine (C4_average_check [(5 : ℚ), 5, 50, 50] [(0 : ℚ), 0, -50, -50] (-50) (-40)
      25 (fun _ _ => 0) (by norm_num) (by rw [hm2]; norm_num)).1 ?_ false
  rw [hm2]
  norm_num [np_mean]

/-- C5: whenever change_point_index ≤ 1 the decision is *not needed*, and
this guard sits before the line-of-best-fit check in
`create_flattened_readings`, so whenever control can reach the least-squares
fit (change_point_index > 1, with the CUSUM trace no longer than the aligned
reading sequence) the regression input `readings[:change_point_index + 1]`
has at least three points. -/
theorem C5_guard_before_lob (readings cusum : List ℚ)
    (cusum_min threshold std : ℚ) (sc sl : Bool) (rng : Nat → ℚ → ℚ) :
    (find_cusum_minimum_index cusum ≤ 1 →
      create_flattened_readings readings cusum cusum_min threshold sc sl std rng =
        .notNeeded) ∧
    (cusum ≠ [] → cusum.length ≤ readings.length →
      1 < find_cusum_minimum_index cusum →
      3 ≤ (lob_input readings (find_cusum_minimum_index cusum)).length) := by
  constructor
  · intro hm
    simp only [create_flattened_readings]
    by_cases h1 : cusum_min > threshold
    · rw [if_pos h1]
    · rw [if_neg h1, if_pos hm]
  · intro hne hlen hm
    have hmlt : find_cusum_minimum_index cusum < cusum.length :=
      index_of_first_lt_length _ _ (list_min_mem _ hne)
    simp only [lob_input, List.length_take]
    omega

/-- Witness for C5: the early-minimum guard fires on the 2-point trace
[0, -50] (change point 1), and on the worked example the regression input has
3 points. -/
theorem C5_guard_before_lob_witness :
    create_flattened_readings [(0 : ℚ), -50] [(0 : ℚ), -50] (-50) (-40)
      true true 25 (fun _ _ => 0) = .notNeeded ∧
    3 ≤ (lob_input [(0 : ℚ), 0, -50, -50]
      (find_cusum_minimum_index [(0 : ℚ), 0, -50, -50])).length := by
  have hidx : find_cusum_minimum_index [(0 : ℚ), -50] = 1 := by
    norm_num [find_cusum_minimum_index, list_min, index_of_first, min_def]
  have hm2 : find_cusum_minimum_index [(0 : ℚ), 0, -50, -50] = 2 := by
    norm_num [find_cusum_minimum_index, list_min, index_of_first, min_def]
  constructor
  · exact (C5_guard_before_lob [(0 : ℚ), -50] [(0 : ℚ), -50] (-50) (-40) 25
      true true (fun _ _ => 0)).1 (by simp [hidx])
  · exact (C5_guard_before_lob [(0 : ℚ), 0, -50, -50] [(0 : ℚ), 0, -50, -50]
      (-50) (-40) 25 true true (fun _ _ => 0)).2 (by simp) (by simp)
      (by rw [hm2]; norm_num)

end RocheFlatten
